import Mathlib

set_option maxHeartbeats 1000000

/-!
Verification development for the `rabbitmq.py` Zabbix plugin.

The source is a ~270-line Python program with three parts:
  * `Cache`: a per-identifier file-backed blob store (`is_valid`, `write`,
    `read`) keyed by a digest of the endpoint URL, with TTL taken from the
    file's modification time and `pickle` as serialization;
  * `API`: a context manager whose `__enter__` performs get-or-refresh
    under a `simpleflock.SimpleFlock` advisory lock (validity check, then
    cache read or the three HTTP fetches overview/queues/healthcheck, then
    cache write), plus a dedicated always-live `getNodeHealth` GET;
  * CLI handlers `doQueues` / `doGeneral` / `doHCheck` and the `__main__`
    dispatch, which answer discovery dumps and dotted-path scalar lookups
    and terminate the process with an exit code.

JSON values are embedded as the mutual inductive `JVal`/`JArr`/`JObj`
(numbers restricted to integers: every field this program reads or
compares is a string, an integer count, or an opaque subtree, so nothing
observable depends on float arithmetic).  `pickle.dump`/`pickle.load` are
embedded as an executable token codec (`encV`/`pickle_load`) so that the
round-trip behaviour of the cache is a real theorem rather than an
assumption.  Python dictionaries are association lists with
replace-in-place update (`JObj.dictInsert`), matching insertion-ordered
`dict` semantics; dictionary keys are modelled as strings, which covers
every key this program ever uses (JSON object keys, and the
`vhost`/`name` values of queue records, which RabbitMQ reports as
strings).
-/

namespace ZbxRabbit

mutual

inductive JVal : Type where
  | jnull : JVal
  | jbool : Bool → JVal
  | jint : Int → JVal
  | jstr : String → JVal
  | jarr : JArr → JVal
  | jobj : JObj → JVal

inductive JArr : Type where
  | anil : JArr
  | acons : JVal → JArr → JArr

inductive JObj : Type where
  | onil : JObj
  | ocons : String → JVal → JObj → JObj

end

deriving instance DecidableEq for JVal, JArr, JObj

/-- Serialized tokens: the embedding of the byte stream `pickle` writes.
Arrays and objects are bracketed by a start token and `tend`. -/
inductive Tok : Type where
  | tnull : Tok
  | tbool : Bool → Tok
  | tint : Int → Tok
  | tstr : String → Tok
  | tarrS : Tok
  | tobjS : Tok
  | tend : Tok
  | tkey : String → Tok
  deriving DecidableEq

mutual

/-- Encoder for values: the embedding of `pickle.dump`. -/
def encV : JVal → List Tok
  | .jnull => [.tnull]
  | .jbool b => [.tbool b]
  | .jint n => [.tint n]
  | .jstr s => [.tstr s]
  | .jarr a => .tarrS :: encA a
  | .jobj o => .tobjS :: encO o

/-- Encoder for array contents. -/
def encA : JArr → List Tok
  | .anil => [.tend]
  | .acons v t => encV v ++ encA t

/-- Encoder for object contents. -/
def encO : JObj → List Tok
  | .onil => [.tend]
  | .ocons k v t => .tkey k :: (encV v ++ encO t)

end

mutual

/-- Constructor-count size used as decoding fuel bound. -/
def sizeV : JVal → Nat
  | .jnull => 1
  | .jbool _ => 1
  | .jint _ => 1
  | .jstr _ => 1
  | .jarr a => 1 + sizeA a
  | .jobj o => 1 + sizeO o

def sizeA : JArr → Nat
  | .anil => 1
  | .acons v t => sizeV v + sizeA t

def sizeO : JObj → Nat
  | .onil => 1
  | .ocons _ v t => sizeV v + sizeO t

end

mutual

/-- Fuelled decoder for one value; returns the value and the remaining
tokens.  The embedding of `pickle.load` (which fails on garbage). -/
def decV : Nat → List Tok → Option (JVal × List Tok)
  | 0, _ => none
  | _ + 1, .tnull :: r => some (.jnull, r)
  | _ + 1, .tbool b :: r => some (.jbool b, r)
  | _ + 1, .tint n :: r => some (.jint n, r)
  | _ + 1, .tstr s :: r => some (.jstr s, r)
  | f + 1, .tarrS :: r =>
    match decA f r with
    | some (a, r2) => some (.jarr a, r2)
    | none => none
  | f + 1, .tobjS :: r =>
    match decO f r with
    | some (o, r2) => some (.jobj o, r2)
    | none => none
  | _ + 1, .tend :: _ => none
  | _ + 1, .tkey _ :: _ => none
  | _ + 1, [] => none

def decA : Nat → List Tok → Option (JArr × List Tok)
  | 0, _ => none
  | _ + 1, .tend :: r => some (.anil, r)
  | f + 1, toks =>
    match decV f toks with
    | some (v, r1) =>
      match decA f r1 with
      | some (t, r2) => some (.acons v t, r2)
      | none => none
    | none => none

def decO : Nat → List Tok → Option (JObj × List Tok)
  | 0, _ => none
  | _ + 1, .tend :: r => some (.onil, r)
  | f + 1, .tkey k :: toks =>
    match decV f toks with
    | some (v, r1) =>
      match decO f r1 with
      | some (t, r2) => some (.ocons k v t, r2)
      | none => none
    | none => none
  | _ + 1, _ => none

end

mutual

theorem sizeV_pos : ∀ v : JVal, 1 ≤ sizeV v
  | .jnull => le_refl 1
  | .jbool _ => le_refl 1
  | .jint _ => le_refl 1
  | .jstr _ => le_refl 1
  | .jarr a => by simp only [sizeV]; omega
  | .jobj o => by simp only [sizeV]; omega

theorem sizeA_pos : ∀ a : JArr, 1 ≤ sizeA a
  | .anil => le_refl 1
  | .acons v t => by
    have h1 := sizeV_pos v
    have h2 := sizeA_pos t
    simp only [sizeA]; omega

theorem sizeO_pos : ∀ o : JObj, 1 ≤ sizeO o
  | .onil => le_refl 1
  | .ocons _ v t => by
    have h1 := sizeV_pos v
    have h2 := sizeO_pos t
    simp only [sizeO]; omega

end

mutual

/-- Decoding inverts encoding for values, given enough fuel. -/
theorem decV_encV : ∀ (v : JVal) (f : Nat) (r : List Tok),
    sizeV v ≤ f → decV f (encV v ++ r) = some (v, r)
  | .jnull, f, r, h => by
    obtain ⟨f', rfl⟩ : ∃ f', f = f' + 1 := ⟨f - 1, by simp [sizeV] at h; omega⟩
    simp [encV, decV]
  | .jbool b, f, r, h => by
    obtain ⟨f', rfl⟩ : ∃ f', f = f' + 1 := ⟨f - 1, by simp [sizeV] at h; omega⟩
    simp [encV, decV]
  | .jint n, f, r, h => by
    obtain ⟨f', rfl⟩ : ∃ f', f = f' + 1 := ⟨f - 1, by simp [sizeV] at h; omega⟩
    simp [encV, decV]
  | .jstr s, f, r, h => by
    obtain ⟨f', rfl⟩ : ∃ f', f = f' + 1 := ⟨f - 1, by simp [sizeV] at h; omega⟩
    simp [encV, decV]
  | .jarr a, f, r, h => by
    obtain ⟨f', rfl⟩ : ∃ f', f = f' + 1 :=
      ⟨f - 1, by have := sizeA_pos a; simp [sizeV] at h; omega⟩
    have ha : sizeA a ≤ f' := by simp [sizeV] at h; omega
    simp [encV, decV, decA_encA a f' r ha]
  | .jobj o, f, r, h => by
    obtain ⟨f', rfl⟩ : ∃ f', f = f' + 1 :=
      ⟨f - 1, by have := sizeO_pos o; simp [sizeV] at h; omega⟩
    have ho : sizeO o ≤ f' := by simp [sizeV] at h; omega
    simp [encV, decV, decO_encO o f' r ho]

/-- Decoding inverts encoding for array contents, given enough fuel. -/
theorem decA_encA : ∀ (a : JArr) (f : Nat) (r : List Tok),
    sizeA a ≤ f → decA f (encA a ++ r) = some (a, r)
  | .anil, f, r, h => by
    obtain ⟨f', rfl⟩ : ∃ f', f = f' + 1 := ⟨f - 1, by simp [sizeA] at h; omega⟩
    simp [encA, decA]
  | .acons v t, f, r, h => by
    have hv := sizeV_pos v
    have ht := sizeA_pos t
    obtain ⟨f', rfl⟩ : ∃ f', f = f' + 1 := ⟨f - 1, by simp [sizeA] at h; omega⟩
    have h1 : sizeV v ≤ f' := by simp [sizeA] at h; omega
    have h2 : sizeA t ≤ f' := by simp [sizeA] at h; omega
    have hval := decV_encV v f' (encA t ++ r) h1
    have htl := decA_encA t f' r h2
    cases v with
    | jnull => simp only [encA, List.append_assoc]; simp [decA, encV] at hval ⊢; simp [hval, htl]
    | jbool b => simp only [encA, List.append_assoc]; simp [decA, encV] at hval ⊢; simp [hval, htl]
    | jint n => simp only [encA, List.append_assoc]; simp [decA, encV] at hval ⊢; simp [hval, htl]
    | jstr s => simp only [encA, List.append_assoc]; simp [decA, encV] at hval ⊢; simp [hval, htl]
    | jarr a2 => simp only [encA, List.append_assoc]; simp [decA, encV] at hval ⊢; simp [hval, htl]
    | jobj o2 => simp only [encA, List.append_assoc]; simp [decA, encV] at hval ⊢; simp [hval, htl]

/-- Decoding inverts encoding for object contents, given enough fuel. -/
theorem decO_encO : ∀ (o : JObj) (f : Nat) (r : List Tok),
    sizeO o ≤ f → decO f (encO o ++ r) = some (o, r)
  | .onil, f, r, h => by
    obtain ⟨f', rfl⟩ : ∃ f', f = f' + 1 := ⟨f - 1, by simp [sizeO] at h; omega⟩
    simp [encO, decO]
  | .ocons k v t, f, r, h => by
    have hv := sizeV_pos v
    have ht := sizeO_pos t
    obtain ⟨f', rfl⟩ : ∃ f', f = f' + 1 := ⟨f - 1, by simp [sizeO] at h; omega⟩
    have h1 : sizeV v ≤ f' := by simp [sizeO] at h; omega
    have h2 : sizeO t ≤ f' := by simp [sizeO] at h; omega
    have hval := decV_encV v f' (encO t ++ r) h1
    have htl := decO_encO t f' r h2
    simp only [encO, List.cons_append, List.append_assoc]
    simp [decO, hval, htl]

end

/-! ## Python object and dictionary semantics -/

/-- Python exceptions that can arise in this program. `httpError n` stands
for a failed HTTP GET or an unparseable JSON body inside `requests`
(the tag distinguishes distinct failures). -/
inductive PyErr : Type where
  | keyError : PyErr
  | typeError : PyErr
  | unpicklingError : PyErr
  | ioError : PyErr
  | httpError : Nat → PyErr
  deriving DecidableEq

/-- Dictionary lookup on an insertion-ordered association list. -/
def JObj.lookup : JObj → String → Option JVal
  | .onil, _ => none
  | .ocons k v t, key => if k = key then some v else JObj.lookup t key

/-- Python `d[k] = v`: replaces in place if the key exists, else appends
(insertion-ordered `dict` semantics). -/
def JObj.dictInsert : JObj → String → JVal → JObj
  | .onil, key, v => .ocons key v .onil
  | .ocons k v0 t, key, v =>
    if k = key then .ocons k v t else .ocons k v0 (JObj.dictInsert t key v)

/-- The keys of a dictionary in insertion order. -/
def JObj.keys : JObj → List String
  | .onil => []
  | .ocons k _ t => k :: JObj.keys t

def JArr.toList : JArr → List JVal
  | .anil => []
  | .acons v t => v :: JArr.toList t

/-- Python subscript `container[key]` with a string key: dictionaries
yield the value or raise `KeyError`; lists, strings and scalars raise
`TypeError` when indexed by a string. -/
def pyGetItem : JVal → String → Except PyErr JVal
  | .jobj o, key =>
    match o.lookup key with
    | some v => .ok v
    | none => .error .keyError
  | _, _ => .error .typeError

/-- Python `for x in container`: lists yield elements, dictionaries yield
their keys, strings yield one-character strings, other scalars raise
`TypeError`. -/
def pyIter : JVal → Except PyErr (List JVal)
  | .jarr a => .ok a.toList
  | .jobj o => .ok (o.keys.map JVal.jstr)
  | .jstr s => .ok (s.toList.map (fun c => JVal.jstr (String.mk [c])))
  | _ => .error .typeError

/-! ## The `Cache` class -/

/-- State of the cache file for one identifier. `statError` stands for a
path on which `os.stat` would raise an `OSError` (`os.path.exists` returns
`False` on such a path, absorbing the error). `present mtime content`
carries the stored modification time and the serialized blob. -/
inductive FileState : Type where
  | absent : FileState
  | statError : FileState
  | present : Int → List Tok → FileState
  deriving DecidableEq

/-- Embeds `os.path.exists`: true only for a statable file. -/
def pyExists : FileState → Bool
  | .present _ _ => true
  | _ => false

/-- Embeds `os.stat(...).st_mtime`; raises `OSError` when the file is absent or
unstatable. -/
def pyStatMtime : FileState → Except PyErr Int
  | .present m _ => .ok m
  | _ => .error .ioError

/-- Embeds `Cache.is_valid`: returns `False` if the file does not exist, `False`
if its age exceeds the TTL, else `True`.  Times are integers (Python
floats; nothing here depends on sub-second resolution). -/
def is_valid (fs : FileState) (now : Int) (ttl : Int) : Except PyErr Bool :=
  if pyExists fs = false then .ok false
  else
    match pyStatMtime fs with
    | .error e => .error e
    | .ok m => if now - m > ttl then .ok false else .ok true

/-- Embeds `pickle.dump` on a value. -/
def pickle_dump (v : JVal) : List Tok := encV v

/-- Embeds `pickle.load`: decodes one object from the stream (trailing tokens are
ignored, as `pickle.load` stops after one object); anything undecodable
raises. -/
def pickle_load (toks : List Tok) : Except PyErr JVal :=
  match decV toks.length toks with
  | some (v, _) => .ok v
  | none => .error .unpicklingError

/-- Embeds `Cache.write`: `open(fileName, 'wb')` truncates and rewrites the blob
in place; the modification time becomes the write time. -/
def Cache.write (now : Int) (p : JVal) : FileState :=
  .present now (pickle_dump p)

/-- Embeds `Cache.read`: opens the blob and unpickles it. -/
def Cache.read (fs : FileState) : Except PyErr JVal :=
  match fs with
  | .present _ content => pickle_load content
  | _ => .error .ioError

/-! ## The `API` class: fetches and get-or-refresh -/

/-- The remote management API's behaviour during one invocation: the
response (parsed JSON body) or failure of each GET endpoint. -/
structure Remote where
  overview : Except PyErr JVal
  queues : Except PyErr JVal
  healthcheck : Except PyErr JVal
  nodeHealth : String → Except PyErr JVal

/-- Observable I/O events of one invocation, in order: each HTTP GET
issued and each cache read/write performed. -/
inductive Ev : Type where
  | fetchOverview : Ev
  | fetchQueues : Ev
  | fetchHealth : Ev
  | cacheRead : Ev
  | cacheWrite : Ev
  | fetchNode : String → Ev
  deriving DecidableEq

/-- One step of the grouping loop in `API.getQueueStats`:
`if not queue['vhost'] in data: data[queue['vhost']] = {}` followed by
`data[queue['vhost']][queue['name']] = queue`.  Missing `vhost`/`name`
keys raise `KeyError` exactly as in Python; a non-string `vhost`/`name`
is modelled as `TypeError` (RabbitMQ reports both as strings, and the
model's dictionary keys are strings). -/
def buildStep (acc : JObj) (q : JVal) : Except PyErr JObj :=
  match pyGetItem q "vhost" with
  | .error e => .error e
  | .ok (.jstr vs) =>
    let acc1 := if (acc.lookup vs).isSome then acc else acc.dictInsert vs (.jobj .onil)
    match pyGetItem q "name" with
    | .error e => .error e
    | .ok (.jstr ns) =>
      match acc1.lookup vs with
      | some (.jobj inner) => .ok (acc1.dictInsert vs (.jobj (inner.dictInsert ns q)))
      | some _ => .error .typeError
      | none => .error .typeError
    | .ok _ => .error .typeError
  | .ok _ => .error .typeError

/-- The grouping loop of `API.getQueueStats` over the queue-record list. -/
def buildTable : List JVal → JObj → Except PyErr JObj
  | [], acc => .ok acc
  | q :: rest, acc =>
    match buildStep acc q with
    | .ok acc2 => buildTable rest acc2
    | .error e => .error e

/-- Embeds `API.getQueueStats`: parse the response, iterate the record list and
group by `(vhost, name)`. -/
def getQueueStats (resp : Except PyErr JVal) : Except PyErr JVal :=
  match resp with
  | .error e => .error e
  | .ok j =>
    match pyIter j with
    | .error e => .error e
    | .ok items =>
      match buildTable items .onil with
      | .error e => .error e
      | .ok t => .ok (.jobj t)

/-- Embeds `API.getNodeHealth`: dedicated live GET, then `data['status']`. -/
def getNodeHealth (r : Remote) (nodeName : String) : Except PyErr JVal :=
  match r.nodeHealth nodeName with
  | .error e => .error e
  | .ok j => pyGetItem j "status"

/-- The payload dictionary assembled by `API.__enter__`:
`self.payload['overview'] = ...; self.payload['queues'] = ...;
self.payload['healthcheck'] = ...` starting from `{}`. -/
def payloadBuild (ov qs hc : JVal) : JVal :=
  .jobj (((JObj.onil.dictInsert "overview" ov).dictInsert "queues" qs).dictInsert
    "healthcheck" hc)

instance {ε α : Type} [DecidableEq ε] [DecidableEq α] : DecidableEq (Except ε α) :=
  fun a b =>
    match a, b with
    | .ok x, .ok y =>
      if h : x = y then .isTrue (by rw [h]) else .isFalse (by intro hc; cases hc; exact h rfl)
    | .error x, .error y =>
      if h : x = y then .isTrue (by rw [h]) else .isFalse (by intro hc; cases hc; exact h rfl)
    | .ok _, .error _ => .isFalse (by intro hc; cases hc)
    | .error _, .ok _ => .isFalse (by intro hc; cases hc)

/-- Result of one `API.__enter__` execution: the payload or the uncaught
exception, the cache file state afterwards, and the I/O event trace. -/
structure EnterResult where
  result : Except PyErr JVal
  cache : FileState
  trace : List Ev
  deriving DecidableEq

/-- Embeds `API.__enter__` (functional, single-invocation view): validity check,
then cache read, or the three fetches in order followed by the cache
write.  The TTL is 60, the `Cache` constructor default used here.  The
`SimpleFlock` acquisition and release around this body are verified on
the interleaved model below; this view is the body run under the lock. -/
def apiEnter (c : FileState) (r : Remote) (now : Int) : EnterResult :=
  match is_valid c now 60 with
  | .error e => ⟨.error e, c, []⟩
  | .ok true =>
    match Cache.read c with
    | .ok p => ⟨.ok p, c, [.cacheRead]⟩
    | .error e => ⟨.error e, c, [.cacheRead]⟩
  | .ok false =>
    match r.overview with
    | .error e => ⟨.error e, c, [.fetchOverview]⟩
    | .ok ov =>
      match getQueueStats r.queues with
      | .error e => ⟨.error e, c, [.fetchOverview, .fetchQueues]⟩
      | .ok qs =>
        match r.healthcheck with
        | .error e => ⟨.error e, c, [.fetchOverview, .fetchQueues, .fetchHealth]⟩
        | .ok hc =>
          let p := payloadBuild ov qs hc
          ⟨.ok p, Cache.write now p, [.fetchOverview, .fetchQueues, .fetchHealth, .cacheWrite]⟩

/-! ## CLI handlers and dispatch -/

/-- Parsed arguments of the three subcommands (after `argparse`). -/
inductive Cmd : Type where
  | queues : Nat → Option String → Option String → Option String → Cmd
  | server : Nat → Option String → Cmd
  | hcheck : Option String → Option String → Cmd
  deriving DecidableEq

/-- One process invocation: either no CLI arguments at all (`len(sys.argv)
== 1`), or a parsed subcommand. -/
inductive Invocation : Type where
  | noArgs : Invocation
  | cmd : Cmd → Invocation
  deriving DecidableEq

/-- One line printed to stdout.  `unknown` is the literal token
`Unknown`; `msgVQRequired` is `-v and -q required with -k`; the help
constructors are the respective parser help dumps. -/
inductive Line : Type where
  | discoveryQueues : List (String × String) → Line
  | discoveryNodes : List JVal → Line
  | value : JVal → Line
  | unknown : Line
  | msgVQRequired : Line
  | helpMain : Line
  | helpQueues : Line
  | helpServer : Line
  | helpHCheck : Line
  deriving DecidableEq

/-- Process outcome: normal termination with its stdout lines and exit
code, or an uncaught exception (with the lines printed before it). -/
inductive Outcome : Type where
  | exited : List Line → Nat → Outcome
  | crashed : List Line → PyErr → Outcome
  deriving DecidableEq

/-- Python truthiness of an optional string argument: `None` and the
empty string are falsy. -/
def strFalsy : Option String → Bool
  | none => true
  | some s => s = ""

/-- Model restriction: using a value as a dictionary key requires a
string (every key this program uses is one). -/
def asKey : JVal → Except PyErr String
  | .jstr s => .ok s
  | _ => .error .typeError

/-- The queue-discovery loop of `doQueues`: iterate
`a.payload['queues']`, then each inner dictionary, collecting
`(vhost, queue)` pairs.  Exceptions propagate (no `try` here). -/
def queuesDiscoveryPairs (p : JVal) : Except PyErr (List (String × String)) := do
  let qs ← pyGetItem p "queues"
  let vhosts ← pyIter qs
  vhosts.foldlM (fun acc vk => do
    let vs ← asKey vk
    let inner ← pyGetItem qs vs
    let names ← pyIter inner
    names.foldlM (fun acc2 nk => do
      let ns ← asKey nk
      pure (acc2 ++ [(vs, ns)])) acc) []

/-- The node-discovery loop of `doGeneral`: iterate
`a.payload['overview']['listeners']`, keep entries whose `protocol`
equals `clustering`, collect their `node` fields.  Exceptions propagate
(no `try` here). -/
def nodesDiscovery (p : JVal) : Except PyErr (List JVal) := do
  let ov ← pyGetItem p "overview"
  let data ← pyGetItem ov "listeners"
  let items ← pyIter data
  items.foldlM (fun acc l => do
    let proto ← pyGetItem l "protocol"
    if proto = JVal.jstr "clustering" then do
      let nd ← pyGetItem l "node"
      pure (acc ++ [nd])
    else
      pure acc) []

/-- Python `s.split('.')`: splits on every dot, keeping empty pieces
(`''.split('.') == ['']`). -/
def splitDotsAux : List Char → List Char → List String
  | acc, [] => [String.mk acc.reverse]
  | acc, c :: rest =>
    if c = '.' then String.mk acc.reverse :: splitDotsAux [] rest
    else splitDotsAux (c :: acc) rest

def pySplitDot (s : String) : List String := splitDotsAux [] s.data

/-- The dotted-path branch shared by `doQueues` and `doGeneral`:
`keyPath = itemKey.split('.')`; one segment prints `data[itemKey]`, two
segments print `data[keyPath[0]][keyPath[1]]`, anything else prints
`Unknown` and exits 1. -/
def pathBody (data : JVal) (k : String) : Except PyErr (List Line × Nat) :=
  match pySplitDot k with
  | [_] =>
    match pyGetItem data k with
    | .ok v => .ok ([.value v], 0)
    | .error e => .error e
  | [k1, k2] =>
    match pyGetItem data k1 with
    | .ok v1 =>
      match pyGetItem v1 k2 with
      | .ok v => .ok ([.value v], 0)
      | .error e => .error e
    | .error e => .error e
  | _ => .ok ([.unknown], 1)

/-- The `try` body of the `doQueues` item branch:
`data = a.payload['queues'][args.vhost][args.queue]` then the dotted-path
logic. -/
def doQueuesItemBody (p : JVal) (k vh qn : String) : Except PyErr (List Line × Nat) :=
  match pyGetItem p "queues" with
  | .error e => .error e
  | .ok qs =>
    match pyGetItem qs vh with
    | .error e => .error e
    | .ok d1 =>
      match pyGetItem d1 qn with
      | .error e => .error e
      | .ok data => pathBody data k

/-- The `try` body of the `doGeneral` item branch:
`data = a.payload['overview']` then the dotted-path logic. -/
def doGeneralItemBody (p : JVal) (k : String) : Except PyErr (List Line × Nat) :=
  match pyGetItem p "overview" with
  | .error e => .error e
  | .ok data => pathBody data k

/-- The `try` body of the `doHCheck` item branch:
`data = a.payload['healthcheck']; print(data[args.itemKey])` — the key is
used literally, without splitting on dots. -/
def doHCheckItemBody (p : JVal) (k : String) : Except PyErr (List Line × Nat) :=
  match pyGetItem p "healthcheck" with
  | .error e => .error e
  | .ok data =>
    match pyGetItem data k with
    | .ok v => .ok ([.value v], 0)
    | .error e => .error e

/-- Embeds `try ... except KeyError: print('Unknown'); sys.exit(1) else:
sys.exit(0)`: a `KeyError` anywhere in the body prints the `Unknown`
token and exits 1; any other exception propagates uncaught. -/
def tryKeyExcept (body : Except PyErr (List Line × Nat)) : Outcome :=
  match body with
  | .ok (lines, code) => .exited lines code
  | .error .keyError => .exited [.unknown] 1
  | .error e => .crashed [] e

/-- Embeds `doQueues`.  The help path returns to `__main__`, which then runs
`sys.exit(2)`; that final exit is folded into the handler result here. -/
def doQueues (discovery : Nat) (itemKey vhost queue : Option String)
    (c : FileState) (r : Remote) (now : Int) : Outcome × FileState × List Ev :=
  if 0 < discovery then
    let e := apiEnter c r now
    match e.result with
    | .error err => (.crashed [] err, e.cache, e.trace)
    | .ok p =>
      match queuesDiscoveryPairs p with
      | .ok pairs => (.exited [.discoveryQueues pairs] 0, e.cache, e.trace)
      | .error err => (.crashed [] err, e.cache, e.trace)
  else if strFalsy itemKey = false then
    if strFalsy vhost || strFalsy queue then
      (.exited [.msgVQRequired] 0, c, [])
    else
      let e := apiEnter c r now
      match e.result with
      | .error err => (.crashed [] err, e.cache, e.trace)
      | .ok p =>
        (tryKeyExcept (doQueuesItemBody p (itemKey.getD "") (vhost.getD "") (queue.getD "")),
          e.cache, e.trace)
  else
    (.exited [.helpQueues] 2, c, [])

/-- Embeds `doGeneral` (the `server` subcommand). -/
def doGeneral (discovery : Nat) (itemKey : Option String)
    (c : FileState) (r : Remote) (now : Int) : Outcome × FileState × List Ev :=
  if 0 < discovery then
    let e := apiEnter c r now
    match e.result with
    | .error err => (.crashed [] err, e.cache, e.trace)
    | .ok p =>
      match nodesDiscovery p with
      | .ok nodes => (.exited [.discoveryNodes nodes] 0, e.cache, e.trace)
      | .error err => (.crashed [] err, e.cache, e.trace)
  else if strFalsy itemKey = false then
    let e := apiEnter c r now
    match e.result with
    | .error err => (.crashed [] err, e.cache, e.trace)
    | .ok p =>
      (tryKeyExcept (doGeneralItemBody p (itemKey.getD "")), e.cache, e.trace)
  else
    (.exited [.helpServer] 2, c, [])

/-- Embeds `doHCheck`.  The node branch performs the get-or-refresh first (by
entering `API`) and only then issues the dedicated live node-health GET;
errors of that GET and a missing `status` field propagate uncaught. -/
def doHCheck (itemKey nodeName : Option String)
    (c : FileState) (r : Remote) (now : Int) : Outcome × FileState × List Ev :=
  if strFalsy itemKey = false then
    let e := apiEnter c r now
    match e.result with
    | .error err => (.crashed [] err, e.cache, e.trace)
    | .ok p =>
      (tryKeyExcept (doHCheckItemBody p (itemKey.getD "")), e.cache, e.trace)
  else if strFalsy nodeName = false then
    let e := apiEnter c r now
    match e.result with
    | .error err => (.crashed [] err, e.cache, e.trace)
    | .ok _ =>
      match getNodeHealth r (nodeName.getD "") with
      | .ok v =>
        (.exited [.value v] 0, e.cache, e.trace ++ [.fetchNode (nodeName.getD "")])
      | .error err =>
        (.crashed [] err, e.cache, e.trace ++ [.fetchNode (nodeName.getD "")])
  else
    (.exited [.helpHCheck] 2, c, [])

/-- The `__main__` dispatch: with no arguments print help and exit 0;
otherwise run the subcommand handler (whose fall-through path ends in the
trailing `sys.exit(2)`). -/
def runMain (inv : Invocation) (c : FileState) (r : Remote) (now : Int) :
    Outcome × FileState × List Ev :=
  match inv with
  | .noArgs => (.exited [.helpMain] 0, c, [])
  | .cmd (.queues d k v q) => doQueues d k v q c r now
  | .cmd (.server d k) => doGeneral d k c r now
  | .cmd (.hcheck k n) => doHCheck k n c r now

/-! ## Interleaved model of concurrent invocations

Each invocation is an OS process running the `API.__enter__` sequence.
`simpleflock.SimpleFlock(c.fileLock, timeout=10)` polls for the advisory
lock and raises after the timeout; its `__exit__` releases the lock on
both normal and exceptional exit of the `with` body.  `Cache.write`
opens the blob with mode `'wb'`, which truncates it in place before the
new bytes are written, so mid-write the file holds an incomplete blob;
`Cache.read` observes whatever bytes the file currently holds.  Waiting
is modelled in lock-poll units: each failed poll consumes one unit, and
after 10 units the next poll raises the timeout. -/

/-- Cache-file content as seen by concurrent invocations: a complete
blob (tagged with a version) or a truncated, half-written one. -/
inductive FileV : Type where
  | complete : Nat → FileV
  | truncated : FileV
  deriving DecidableEq

/-- Failure conditions of one invocation in the interleaved model. -/
inductive CErr : Type where
  | lockTimeout : CErr
  | remoteFailure : CErr
  deriving DecidableEq

/-- Program counter of one invocation running `API.__enter__`. -/
inductive PC : Type where
  | start : PC
  | check : PC
  | readS : PC
  | fetch1 : PC
  | fetch2 : PC
  | fetch3 : PC
  | writeA : PC
  | writeB : PC
  | unlockOk : PC
  | unlockErr : PC
  | done : PC
  | failed : CErr → PC
  deriving DecidableEq

/-- Per-process state: program counter, polls spent waiting for the
lock, and the blob observed by this process's `read` (if any). -/
structure PState where
  pc : PC
  wait : Nat
  obs : Option FileV
  deriving DecidableEq

/-- Global state: lock owner, cache-file content, next fresh blob
version, and all process states. -/
structure CSys (PId : Type) where
  lock : Option PId
  file : FileV
  nextv : Nat
  procs : PId → PState

/-- The initial state: lock free, a complete blob on disk, every process
at the lock-acquisition point. -/
def initSys (PId : Type) : CSys PId :=
  ⟨none, .complete 0, 1, fun _ => ⟨.start, 0, none⟩⟩

def setProc {PId : Type} [DecidableEq PId] (s : CSys PId) (i : PId) (p : PState) :
    CSys PId :=
  { s with procs := fun j => if j = i then p else s.procs j }

@[simp] theorem setProc_lock {PId : Type} [DecidableEq PId]
    (s : CSys PId) (i : PId) (p : PState) : (setProc s i p).lock = s.lock := rfl

@[simp] theorem setProc_file {PId : Type} [DecidableEq PId]
    (s : CSys PId) (i : PId) (p : PState) : (setProc s i p).file = s.file := rfl

@[simp] theorem setProc_nextv {PId : Type} [DecidableEq PId]
    (s : CSys PId) (i : PId) (p : PState) : (setProc s i p).nextv = s.nextv := rfl

@[simp] theorem setProc_procs_eq {PId : Type} [DecidableEq PId]
    (s : CSys PId) (i : PId) (p : PState) : (setProc s i p).procs i = p := by
  simp [setProc]

theorem setProc_procs_ne {PId : Type} [DecidableEq PId]
    (s : CSys PId) (i j : PId) (p : PState) (h : j ≠ i) :
    (setProc s i p).procs j = s.procs j := by
  simp [setProc, h]

/-- One atomic step of process `i`. -/
inductive Step {PId : Type} [DecidableEq PId] (i : PId) : CSys PId → CSys PId → Prop where
  | acqOk (s : CSys PId) :
      (s.procs i).pc = .start → s.lock = none →
      Step i s { setProc s i { s.procs i with pc := .check } with lock := some i }
  | acqWait (s : CSys PId) (j : PId) :
      (s.procs i).pc = .start → s.lock = some j → j ≠ i → (s.procs i).wait < 10 →
      Step i s (setProc s i { s.procs i with wait := (s.procs i).wait + 1 })
  | acqTimeout (s : CSys PId) (j : PId) :
      (s.procs i).pc = .start → s.lock = some j → j ≠ i → (s.procs i).wait = 10 →
      Step i s (setProc s i { s.procs i with pc := .failed .lockTimeout })
  | checkHit (s : CSys PId) :
      (s.procs i).pc = .check →
      Step i s (setProc s i { s.procs i with pc := .readS })
  | checkMiss (s : CSys PId) :
      (s.procs i).pc = .check →
      Step i s (setProc s i { s.procs i with pc := .fetch1 })
  | readOk (s : CSys PId) :
      (s.procs i).pc = .readS →
      Step i s (setProc s i { s.procs i with pc := .unlockOk, obs := some s.file })
  | readCorrupt (s : CSys PId) :
      (s.procs i).pc = .readS →
      Step i s (setProc s i { s.procs i with pc := .unlockErr, obs := some s.file })
  | fetchOk1 (s : CSys PId) :
      (s.procs i).pc = .fetch1 →
      Step i s (setProc s i { s.procs i with pc := .fetch2 })
  | fetchFail1 (s : CSys PId) :
      (s.procs i).pc = .fetch1 →
      Step i s (setProc s i { s.procs i with pc := .unlockErr })
  | fetchOk2 (s : CSys PId) :
      (s.procs i).pc = .fetch2 →
      Step i s (setProc s i { s.procs i with pc := .fetch3 })
  | fetchFail2 (s : CSys PId) :
      (s.procs i).pc = .fetch2 →
      Step i s (setProc s i { s.procs i with pc := .unlockErr })
  | fetchOk3 (s : CSys PId) :
      (s.procs i).pc = .fetch3 →
      Step i s (setProc s i { s.procs i with pc := .writeA })
  | fetchFail3 (s : CSys PId) :
      (s.procs i).pc = .fetch3 →
      Step i s (setProc s i { s.procs i with pc := .unlockErr })
  | writeTrunc (s : CSys PId) :
      (s.procs i).pc = .writeA →
      Step i s { setProc s i { s.procs i with pc := .writeB } with file := .truncated }
  | writeDone (s : CSys PId) :
      (s.procs i).pc = .writeB →
      Step i s { setProc s i { s.procs i with pc := .unlockOk } with
                  file := .complete s.nextv, nextv := s.nextv + 1 }
  | unlockN (s : CSys PId) :
      (s.procs i).pc = .unlockOk →
      Step i s { setProc s i { s.procs i with pc := .done } with lock := none }
  | unlockE (s : CSys PId) :
      (s.procs i).pc = .unlockErr →
      Step i s { setProc s i { s.procs i with pc := .failed .remoteFailure } with
                  lock := none }

/-- A step by some process. -/
def SysStep {PId : Type} [DecidableEq PId] (s s2 : CSys PId) : Prop :=
  ∃ i, Step i s s2

/-- States reachable from the initial one. -/
def Reachable {PId : Type} [DecidableEq PId] (s : CSys PId) : Prop :=
  Relation.ReflTransGen SysStep (initSys PId) s

/-- The get-or-refresh critical section (validity check, read, fetches,
write, and the release points). -/
def inLocked : PC → Bool
  | .check => true
  | .readS => true
  | .fetch1 => true
  | .fetch2 => true
  | .fetch3 => true
  | .writeA => true
  | .writeB => true
  | .unlockOk => true
  | .unlockErr => true
  | _ => false

/-- The global invariant: the lock owner is exactly the process inside
the critical section, a truncated file implies a mid-write lock holder,
every observed blob is complete, and waiting is bounded by the timeout. -/
def Inv {PId : Type} [DecidableEq PId] (s : CSys PId) : Prop :=
  (∀ i, inLocked (s.procs i).pc = true → s.lock = some i) ∧
  (∀ i, s.lock = some i → inLocked (s.procs i).pc = true) ∧
  (s.file = .truncated → ∃ j, s.lock = some j ∧ (s.procs j).pc = .writeB) ∧
  (∀ i f, (s.procs i).obs = some f → f ≠ .truncated) ∧
  (∀ i, (s.procs i).wait ≤ 10)

theorem inv_init {PId : Type} [DecidableEq PId] : Inv (initSys PId) := by
  refine ⟨?_, ?_, ?_, ?_, ?_⟩
  · intro i h; simp [initSys, inLocked] at h
  · intro i h; simp [initSys] at h
  · intro h; simp [initSys] at h
  · intro i f h; simp [initSys] at h
  · intro i; simp [initSys]

theorem inv_pcmove {PId : Type} [DecidableEq PId] (s : CSys PId) (i : PId) (p1 : PC)
    (hInv : Inv s)
    (hold : inLocked (s.procs i).pc = true)
    (hnew : inLocked p1 = true)
    (hB : (s.procs i).pc ≠ .writeB) :
    Inv (setProc s i { s.procs i with pc := p1 }) := by
  obtain ⟨h1, h2, h3, h4, h5⟩ := hInv
  have hlock : s.lock = some i := h1 i hold
  refine ⟨?_, ?_, ?_, ?_, ?_⟩
  · intro j hj
    by_cases hji : j = i
    · subst hji; simpa using hlock
    · rw [setProc_procs_ne s i j _ hji] at hj
      simpa using h1 j hj
  · intro j hj
    simp only [setProc_lock] at hj
    by_cases hji : j = i
    · subst hji; simpa using hnew
    · rw [setProc_procs_ne s i j _ hji]; exact h2 j hj
  · intro hf
    simp only [setProc_file] at hf
    obtain ⟨j0, hj1, hj2⟩ := h3 hf
    have hji : j0 ≠ i := by intro he; rw [he] at hj2; exact hB hj2
    refine ⟨j0, by simpa using hj1, ?_⟩
    rw [setProc_procs_ne s i j0 _ hji]; exact hj2
  · intro j f hobs
    by_cases hji : j = i
    · rw [hji, setProc_procs_eq] at hobs; exact h4 i f hobs
    · rw [setProc_procs_ne s i j _ hji] at hobs; exact h4 j f hobs
  · intro j
    by_cases hji : j = i
    · rw [hji, setProc_procs_eq]; exact h5 i
    · rw [setProc_procs_ne s i j _ hji]; exact h5 j

theorem inv_readstep {PId : Type} [DecidableEq PId] (s : CSys PId) (i : PId) (p1 : PC)
    (hInv : Inv s)
    (hpc : (s.procs i).pc = .readS)
    (hnew : inLocked p1 = true) :
    Inv (setProc s i { s.procs i with pc := p1, obs := some s.file }) := by
  obtain ⟨h1, h2, h3, h4, h5⟩ := hInv
  have hold : inLocked (s.procs i).pc = true := by rw [hpc]; rfl
  have hlock : s.lock = some i := h1 i hold
  have hfile : s.file ≠ .truncated := by
    intro hf
    obtain ⟨j0, hj1, hj2⟩ := h3 hf
    rw [hlock] at hj1
    injection hj1 with hji
    rw [hji] at hpc
    rw [hpc] at hj2
    simp at hj2
  refine ⟨?_, ?_, ?_, ?_, ?_⟩
  · intro j hj
    by_cases hji : j = i
    · rw [hji]; simpa using hlock
    · rw [setProc_procs_ne s i j _ hji] at hj
      simpa using h1 j hj
  · intro j hj
    simp only [setProc_lock] at hj
    by_cases hji : j = i
    · rw [hji, setProc_procs_eq]; simpa using hnew
    · rw [setProc_procs_ne s i j _ hji]; exact h2 j hj
  · intro hf
    simp only [setProc_file] at hf
    exact absurd hf hfile
  · intro j f hobs
    by_cases hji : j = i
    · rw [hji, setProc_procs_eq] at hobs
      have h6 : some s.file = some f := hobs
      injection h6 with hfe
      rw [← hfe]; exact hfile
    · rw [setProc_procs_ne s i j _ hji] at hobs; exact h4 j f hobs
  · intro j
    by_cases hji : j = i
    · rw [hji, setProc_procs_eq]; exact h5 i
    · rw [setProc_procs_ne s i j _ hji]; exact h5 j

theorem inv_unlockstep {PId : Type} [DecidableEq PId] (s : CSys PId) (i : PId) (p1 : PC)
    (hInv : Inv s)
    (hold : inLocked (s.procs i).pc = true)
    (hB : (s.procs i).pc ≠ .writeB)
    (hnew : inLocked p1 = false) :
    Inv { setProc s i { s.procs i with pc := p1 } with lock := none } := by
  obtain ⟨h1, h2, h3, h4, h5⟩ := hInv
  have hlock : s.lock = some i := h1 i hold
  have hprocs : ∀ j, ({ setProc s i { s.procs i with pc := p1 } with lock := none } :
      CSys PId).procs j = if j = i then { s.procs i with pc := p1 } else s.procs j := by
    intro j
    simp [setProc]
  refine ⟨?_, ?_, ?_, ?_, ?_⟩
  · intro j hj
    rw [hprocs] at hj
    by_cases hji : j = i
    · rw [if_pos hji] at hj
      simp only at hj
      rw [hj] at hnew
      exact Bool.noConfusion hnew
    · rw [if_neg hji] at hj
      have h6 := h1 j hj
      rw [hlock] at h6
      injection h6 with hji2
      exact absurd hji2.symm hji
  · intro j hj
    exact Option.noConfusion hj
  · intro hf
    have hf2 : s.file = .truncated := hf
    obtain ⟨j0, hj1, hj2⟩ := h3 hf2
    rw [hlock] at hj1
    injection hj1 with hji
    rw [← hji] at hj2
    exact absurd hj2 hB
  · intro j f hobs
    rw [hprocs] at hobs
    by_cases hji : j = i
    · rw [if_pos hji] at hobs
      exact h4 i f hobs
    · rw [if_neg hji] at hobs
      exact h4 j f hobs
  · intro j
    rw [hprocs]
    by_cases hji : j = i
    · rw [if_pos hji]
      exact h5 i
    · rw [if_neg hji]
      exact h5 j

theorem inv_step {PId : Type} [DecidableEq PId] (s s2 : CSys PId)
    (hInv : Inv s) (h : SysStep s s2) : Inv s2 := by
  obtain ⟨i, st⟩ := h
  cases st with
  | acqOk hpc hlock =>
    obtain ⟨h1, h2, h3, h4, h5⟩ := hInv
    have hprocs : ∀ j, ({ setProc s i { s.procs i with pc := PC.check } with
        lock := some i } : CSys PId).procs j =
        if j = i then { s.procs i with pc := PC.check } else s.procs j := by
      intro j; simp [setProc]
    refine ⟨?_, ?_, ?_, ?_, ?_⟩
    · intro j hj
      by_cases hji : j = i
      · rw [hji]
      · rw [hprocs, if_neg hji] at hj
        have h6 := h1 j hj
        rw [hlock] at h6
        exact Option.noConfusion h6
    · intro j hj
      have hj2 : some i = some j := hj
      injection hj2 with hji
      rw [hprocs, if_pos hji.symm]
      rfl
    · intro hf
      have hf2 : s.file = .truncated := hf
      obtain ⟨j0, hj1, hj2⟩ := h3 hf2
      rw [hlock] at hj1
      exact Option.noConfusion hj1
    · intro j f hobs
      rw [hprocs] at hobs
      by_cases hji : j = i
      · rw [if_pos hji] at hobs; exact h4 i f hobs
      · rw [if_neg hji] at hobs; exact h4 j f hobs
    · intro j
      rw [hprocs]
      by_cases hji : j = i
      · rw [if_pos hji]; exact h5 i
      · rw [if_neg hji]; exact h5 j
  | acqWait j1 hpc hlock hj1i hw =>
    obtain ⟨h1, h2, h3, h4, h5⟩ := hInv
    refine ⟨?_, ?_, ?_, ?_, ?_⟩
    · intro j hj
      by_cases hji : j = i
      · rw [hji, setProc_procs_eq] at hj
        simp only at hj
        rw [hpc] at hj
        exact Bool.noConfusion hj
      · rw [setProc_procs_ne s i j _ hji] at hj
        simpa using h1 j hj
    · intro j hj
      simp only [setProc_lock] at hj
      have h6 := h2 j hj
      by_cases hji : j = i
      · rw [hji] at h6
        rw [hpc] at h6
        exact Bool.noConfusion h6
      · rw [setProc_procs_ne s i j _ hji]; exact h6
    · intro hf
      simp only [setProc_file] at hf
      obtain ⟨j0, hj1, hj2⟩ := h3 hf
      have hji : j0 ≠ i := by
        intro he; rw [he, hpc] at hj2; exact PC.noConfusion hj2
      refine ⟨j0, by simpa using hj1, ?_⟩
      rw [setProc_procs_ne s i j0 _ hji]; exact hj2
    · intro j f hobs
      by_cases hji : j = i
      · rw [hji, setProc_procs_eq] at hobs; exact h4 i f hobs
      · rw [setProc_procs_ne s i j _ hji] at hobs; exact h4 j f hobs
    · intro j
      by_cases hji : j = i
      · rw [hji, setProc_procs_eq]
        simp only
        omega
      · rw [setProc_procs_ne s i j _ hji]; exact h5 j
  | acqTimeout j1 hpc hlock hj1i hw =>
    obtain ⟨h1, h2, h3, h4, h5⟩ := hInv
    refine ⟨?_, ?_, ?_, ?_, ?_⟩
    · intro j hj
      by_cases hji : j = i
      · rw [hji, setProc_procs_eq] at hj
        exact Bool.noConfusion hj
      · rw [setProc_procs_ne s i j _ hji] at hj
        simpa using h1 j hj
    · intro j hj
      simp only [setProc_lock] at hj
      have h6 := h2 j hj
      by_cases hji : j = i
      · rw [hji] at h6
        rw [hpc] at h6
        exact Bool.noConfusion h6
      · rw [setProc_procs_ne s i j _ hji]; exact h6
    · intro hf
      simp only [setProc_file] at hf
      obtain ⟨j0, hj1, hj2⟩ := h3 hf
      have hji : j0 ≠ i := by
        intro he; rw [he, hpc] at hj2; exact PC.noConfusion hj2
      refine ⟨j0, by simpa using hj1, ?_⟩
      rw [setProc_procs_ne s i j0 _ hji]; exact hj2
    · intro j f hobs
      by_cases hji : j = i
      · rw [hji, setProc_procs_eq] at hobs; exact h4 i f hobs
      · rw [setProc_procs_ne s i j _ hji] at hobs; exact h4 j f hobs
    · intro j
      by_cases hji : j = i
      · rw [hji, setProc_procs_eq]; exact h5 i
      · rw [setProc_procs_ne s i j _ hji]; exact h5 j
  | checkHit hpc =>
    exact inv_pcmove s i _ hInv (by rw [hpc]; rfl) rfl (by rw [hpc]; simp)
  | checkMiss hpc =>
    exact inv_pcmove s i _ hInv (by rw [hpc]; rfl) rfl (by rw [hpc]; simp)
  | readOk hpc =>
    exact inv_readstep s i _ hInv hpc rfl
  | readCorrupt hpc =>
    exact inv_readstep s i _ hInv hpc rfl
  | fetchOk1 hpc =>
    exact inv_pcmove s i _ hInv (by rw [hpc]; rfl) rfl (by rw [hpc]; simp)
  | fetchFail1 hpc =>
    exact inv_pcmove s i _ hInv (by rw [hpc]; rfl) rfl (by rw [hpc]; simp)
  | fetchOk2 hpc =>
    exact inv_pcmove s i _ hInv (by rw [hpc]; rfl) rfl (by rw [hpc]; simp)
  | fetchFail2 hpc =>
    exact inv_pcmove s i _ hInv (by rw [hpc]; rfl) rfl (by rw [hpc]; simp)
  | fetchOk3 hpc =>
    exact inv_pcmove s i _ hInv (by rw [hpc]; rfl) rfl (by rw [hpc]; simp)
  | fetchFail3 hpc =>
    exact inv_pcmove s i _ hInv (by rw [hpc]; rfl) rfl (by rw [hpc]; simp)
  | writeTrunc hpc =>
    obtain ⟨h1, h2, h3, h4, h5⟩ := hInv
    have hlock : s.lock = some i := h1 i (by rw [hpc]; rfl)
    have hprocs : ∀ j, ({ setProc s i { s.procs i with pc := PC.writeB } with
        file := FileV.truncated } : CSys PId).procs j =
        if j = i then { s.procs i with pc := PC.writeB } else s.procs j := by
      intro j; simp [setProc]
    refine ⟨?_, ?_, ?_, ?_, ?_⟩
    · intro j hj
      by_cases hji : j = i
      · rw [hji]
        exact hlock
      · rw [hprocs, if_neg hji] at hj
        exact h1 j hj
    · intro j hj
      have hj2 : s.lock = some j := hj
      rw [hlock] at hj2
      injection hj2 with hji
      rw [hprocs, if_pos hji.symm]
      rfl
    · intro _
      refine ⟨i, hlock, ?_⟩
      rw [hprocs, if_pos rfl]
    · intro j f hobs
      rw [hprocs] at hobs
      by_cases hji : j = i
      · rw [if_pos hji] at hobs; exact h4 i f hobs
      · rw [if_neg hji] at hobs; exact h4 j f hobs
    · intro j
      rw [hprocs]
      by_cases hji : j = i
      · rw [if_pos hji]; exact h5 i
      · rw [if_neg hji]; exact h5 j
  | writeDone hpc =>
    obtain ⟨h1, h2, h3, h4, h5⟩ := hInv
    have hlock : s.lock = some i := h1 i (by rw [hpc]; rfl)
    have hprocs : ∀ j, ({ setProc s i { s.procs i with pc := PC.unlockOk } with
        file := FileV.complete s.nextv, nextv := s.nextv + 1 } : CSys PId).procs j =
        if j = i then { s.procs i with pc := PC.unlockOk } else s.procs j := by
      intro j; simp [setProc]
    refine ⟨?_, ?_, ?_, ?_, ?_⟩
    · intro j hj
      by_cases hji : j = i
      · rw [hji]
        exact hlock
      · rw [hprocs, if_neg hji] at hj
        exact h1 j hj
    · intro j hj
      have hj2 : s.lock = some j := hj
      rw [hlock] at hj2
      injection hj2 with hji
      rw [hprocs, if_pos hji.symm]
      rfl
    · intro hf
      have hf2 : FileV.complete s.nextv = FileV.truncated := hf
      exact FileV.noConfusion hf2
    · intro j f hobs
      rw [hprocs] at hobs
      by_cases hji : j = i
      · rw [if_pos hji] at hobs; exact h4 i f hobs
      · rw [if_neg hji] at hobs; exact h4 j f hobs
    · intro j
      rw [hprocs]
      by_cases hji : j = i
      · rw [if_pos hji]; exact h5 i
      · rw [if_neg hji]; exact h5 j
  | unlockN hpc =>
    exact inv_unlockstep s i _ hInv (by rw [hpc]; rfl) (by rw [hpc]; simp) rfl
  | unlockE hpc =>
    exact inv_unlockstep s i _ hInv (by rw [hpc]; rfl) (by rw [hpc]; simp) rfl

/-- Every reachable state satisfies the invariant. -/
theorem inv_reachable {PId : Type} [DecidableEq PId] (s : CSys PId)
    (h : Reachable s) : Inv s := by
  induction h with
  | refl => exact inv_init
  | tail _ hstep ih => exact inv_step _ _ ih hstep

/-! ## Cache lemmas -/

mutual

theorem sizeV_le_len : ∀ v : JVal, sizeV v ≤ (encV v).length
  | .jnull => le_refl 1
  | .jbool _ => le_refl 1
  | .jint _ => le_refl 1
  | .jstr _ => le_refl 1
  | .jarr a => by
    have h := sizeA_le_len a
    simp [sizeV, encV]
    omega
  | .jobj o => by
    have h := sizeO_le_len o
    simp [sizeV, encV]
    omega

theorem sizeA_le_len : ∀ a : JArr, sizeA a ≤ (encA a).length
  | .anil => le_refl 1
  | .acons v t => by
    have h1 := sizeV_le_len v
    have h2 := sizeA_le_len t
    simp [sizeA, encA]
    omega

theorem sizeO_le_len : ∀ o : JObj, sizeO o ≤ (encO o).length
  | .onil => le_refl 1
  | .ocons _ v t => by
    have h1 := sizeV_le_len v
    have h2 := sizeO_le_len t
    simp [sizeO, encO]
    omega

end

/-- Unpickling inverts pickling for every value. -/
theorem pickle_load_dump (v : JVal) : pickle_load (pickle_dump v) = .ok v := by
  unfold pickle_load pickle_dump
  have h := decV_encV v (encV v).length [] (sizeV_le_len v)
  rw [List.append_nil] at h
  rw [h]

/-- Reading back a just-written blob yields the written value. -/
theorem read_write_id (now : Int) (p : JVal) :
    Cache.read (Cache.write now p) = .ok p := by
  unfold Cache.read Cache.write
  exact pickle_load_dump p

/-- C4: the validity check is total: it never propagates an error.  It
returns true exactly when the blob is statable (present) and its age
`now - mtime` is at most the TTL; an absent blob, and a path on which
reading the timestamp would raise an `OSError`, both yield false (the
`os.path.exists` guard absorbs the error before `os.stat` runs). -/
theorem C4_is_valid_total_and_correct (fs : FileState) (now ttl : Int) :
    (∃ b, is_valid fs now ttl = .ok b) ∧
    (is_valid fs now ttl = .ok true ↔
      ∃ m content, fs = .present m content ∧ now - m ≤ ttl) ∧
    (pyExists fs = false → is_valid fs now ttl = .ok false) := by
  cases fs with
  | absent =>
    refine ⟨⟨false, by simp [is_valid, pyExists]⟩, ?_, ?_⟩
    · simp [is_valid, pyExists]
    · intro _; simp [is_valid, pyExists]
  | statError =>
    refine ⟨⟨false, by simp [is_valid, pyExists]⟩, ?_, ?_⟩
    · simp [is_valid, pyExists]
    · intro _; simp [is_valid, pyExists]
  | present m content =>
    by_cases h : now - m > ttl
    · refine ⟨⟨false, by simp [is_valid, pyExists, pyStatMtime, h]⟩, ?_, ?_⟩
      · simp only [is_valid, pyExists, pyStatMtime, if_pos h]
        constructor
        · intro hc; simp at hc
        · rintro ⟨m2, c2, heq, hle⟩
          injection heq with hm hc
          omega
      · intro hfalse; simp [pyExists] at hfalse
    · refine ⟨⟨true, by simp [is_valid, pyExists, pyStatMtime, h]⟩, ?_, ?_⟩
      · simp only [is_valid, pyExists, pyStatMtime, if_neg h]
        constructor
        · intro _; exact ⟨m, content, rfl, by omega⟩
        · intro _; simp
      · intro hfalse; simp [pyExists] at hfalse

/-- C5: read after write is the identity on Payload trees: writing the
payload dictionary assembled from any three section values (including
empty queue maps and empty listener lists) and reading it back
reproduces it exactly. -/
theorem C5_read_after_write (ov qs hc : JVal) (now : Int) :
    Cache.read (Cache.write now (payloadBuild ov qs hc)) =
      .ok (payloadBuild ov qs hc) :=
  read_write_id now (payloadBuild ov qs hc)

example : pickle_load (pickle_dump (.jobj (.ocons "a" (.jint 5) .onil))) =
    .ok (.jobj (.ocons "a" (.jint 5) .onil)) := by decide

example : pickle_load [.tend] = .error .unpicklingError := by decide

example : is_valid (.present 0 [.tend]) 30 60 = .ok true := by decide

example : is_valid (.present 0 [.tend]) 61 60 = .ok false := by decide

/-! ## Grouping (last-write-wins) lemmas -/

theorem lookup_dictInsert_self : ∀ (o : JObj) (k : String) (v : JVal),
    (o.dictInsert k v).lookup k = some v
  | .onil, k, v => by simp [JObj.dictInsert, JObj.lookup]
  | .ocons k0 v0 t, k, v => by
    by_cases h : k0 = k
    · simp [JObj.dictInsert, JObj.lookup, h]
    · simp [JObj.dictInsert, JObj.lookup, h, lookup_dictInsert_self t k v]

theorem lookup_dictInsert_ne : ∀ (o : JObj) (k k2 : String) (v : JVal),
    k2 ≠ k → (o.dictInsert k v).lookup k2 = o.lookup k2
  | .onil, k, k2, v, h => by simp [JObj.dictInsert, JObj.lookup, Ne.symm h]
  | .ocons k0 v0 t, k, k2, v, h => by
    by_cases h0 : k0 = k
    · subst h0
      simp [JObj.dictInsert, JObj.lookup, Ne.symm h]
    · by_cases h2 : k0 = k2
      · simp [JObj.dictInsert, JObj.lookup, h0, h2, h]
      · simp [JObj.dictInsert, JObj.lookup, h0, h2, lookup_dictInsert_ne t k k2 v h]

theorem keys_dictInsert : ∀ (o : JObj) (k : String) (v : JVal),
    (o.dictInsert k v).keys = if k ∈ o.keys then o.keys else o.keys ++ [k]
  | .onil, k, v => by simp [JObj.dictInsert, JObj.keys]
  | .ocons k0 v0 t, k, v => by
    by_cases h : k0 = k
    · subst h
      simp [JObj.dictInsert, JObj.keys]
    · simp only [JObj.dictInsert, if_neg h, JObj.keys, keys_dictInsert t k v]
      have hne : ¬ k = k0 := fun he => h he.symm
      by_cases hmem : k ∈ t.keys
      · simp [hmem, hne]
      · simp [hmem, hne]

theorem nodup_dictInsert (o : JObj) (k : String) (v : JVal)
    (h : o.keys.Nodup) : (o.dictInsert k v).keys.Nodup := by
  rw [keys_dictInsert]
  by_cases hmem : k ∈ o.keys
  · simpa [hmem] using h
  · simp only [if_neg hmem]
    simp [List.nodup_append, h, hmem]

/-- Well-shaped accumulator: every stored value is a dictionary with
distinct keys, and the top-level keys are distinct. -/
def WSInv (acc : JObj) : Prop :=
  acc.keys.Nodup ∧
  ∀ k v, acc.lookup k = some v → ∃ inner : JObj, v = .jobj inner ∧ inner.keys.Nodup

/-- A queue record with string `vhost` and `name` fields (what the API
reports; the claim's notion of a queue record). -/
def wfRecordB (q : JVal) : Bool :=
  match pyGetItem q "vhost", pyGetItem q "name" with
  | .ok (.jstr _), .ok (.jstr _) => true
  | _, _ => false

/-- Whether a record carries exactly the pair `(vs, ns)`. -/
def recMatches (vs ns : String) (q : JVal) : Bool :=
  decide (pyGetItem q "vhost" = .ok (.jstr vs)) &&
  decide (pyGetItem q "name" = .ok (.jstr ns))

/-- Two-level lookup in the grouped table. -/
def lookup2 (t : JObj) (vs ns : String) : Option JVal :=
  match t.lookup vs with
  | some (.jobj inner) => inner.lookup ns
  | _ => none

/-- The last record in the list carrying the pair `(vs, ns)`. -/
def lastRecord (recs : List JVal) (vs ns : String) : Option JVal :=
  match recs with
  | [] => none
  | q :: rest =>
    match lastRecord rest vs ns with
    | some q2 => some q2
    | none => if recMatches vs ns q then some q else none

theorem buildStep_ok (acc : JObj) (q : JVal)
    (hq : wfRecordB q = true) (hws : WSInv acc) :
    ∃ acc2, buildStep acc q = .ok acc2 ∧ WSInv acc2 ∧
      ∀ vs ns, lookup2 acc2 vs ns =
        if recMatches vs ns q then some q else lookup2 acc vs ns := by
  obtain ⟨hnd, hsh⟩ := hws
  unfold wfRecordB at hq
  obtain ⟨vs0, hv⟩ : ∃ vs0, pyGetItem q "vhost" = .ok (.jstr vs0) := by
    cases hvv : pyGetItem q "vhost" with
    | error e => rw [hvv] at hq; simp at hq
    | ok w =>
      cases w with
      | jstr s => exact ⟨s, rfl⟩
      | jnull => rw [hvv] at hq; simp at hq
      | jbool b => rw [hvv] at hq; simp at hq
      | jint n => rw [hvv] at hq; simp at hq
      | jarr a => rw [hvv] at hq; simp at hq
      | jobj o => rw [hvv] at hq; simp at hq
  obtain ⟨ns0, hn⟩ : ∃ ns0, pyGetItem q "name" = .ok (.jstr ns0) := by
    rw [hv] at hq
    cases hnn : pyGetItem q "name" with
    | error e => rw [hnn] at hq; simp at hq
    | ok w =>
      cases w with
      | jstr s => exact ⟨s, rfl⟩
      | jnull => rw [hnn] at hq; simp at hq
      | jbool b => rw [hnn] at hq; simp at hq
      | jint n => rw [hnn] at hq; simp at hq
      | jarr a => rw [hnn] at hq; simp at hq
      | jobj o => rw [hnn] at hq; simp at hq
  have hmT : recMatches vs0 ns0 q = true := by
    unfold recMatches; rw [hv, hn]; simp
  have hmFn : ∀ ns, ns ≠ ns0 → recMatches vs0 ns q = false := by
    intro ns hns
    have hB : (Except.ok (JVal.jstr ns0) : Except PyErr JVal) ≠ .ok (.jstr ns) := by
      intro he
      injection he with h1
      injection h1 with h2
      exact hns h2.symm
    unfold recMatches
    rw [hn]
    simp [hB]
  have hmFv : ∀ vs ns, vs ≠ vs0 → recMatches vs ns q = false := by
    intro vs ns hvs
    have hA : (Except.ok (JVal.jstr vs0) : Except PyErr JVal) ≠ .ok (.jstr vs) := by
      intro he
      injection he with h1
      injection h1 with h2
      exact hvs h2.symm
    unfold recMatches
    rw [hv]
    simp [hA]
  cases hlo : acc.lookup vs0 with
  | some v =>
    obtain ⟨inner0, hveq, hinnd⟩ := hsh vs0 v hlo
    subst hveq
    have hstep : buildStep acc q =
        .ok (acc.dictInsert vs0 (.jobj (inner0.dictInsert ns0 q))) := by
      unfold buildStep
      rw [hv, hn]
      simp [hlo]
    refine ⟨_, hstep, ⟨nodup_dictInsert acc vs0 _ hnd, ?_⟩, ?_⟩
    · intro k v2 hk
      by_cases hkv : k = vs0
      · subst hkv
        rw [lookup_dictInsert_self] at hk
        injection hk with hk2
        exact ⟨inner0.dictInsert ns0 q, hk2.symm,
          nodup_dictInsert inner0 ns0 q hinnd⟩
      · rw [lookup_dictInsert_ne acc vs0 k _ hkv] at hk
        exact hsh k v2 hk
    · intro vs ns
      by_cases hvs : vs = vs0
      · subst hvs
        by_cases hns : ns = ns0
        · subst hns
          simp [lookup2, lookup_dictInsert_self, hmT]
        · simp [lookup2, lookup_dictInsert_self,
            lookup_dictInsert_ne inner0 ns0 ns q hns, hmFn ns hns, hlo]
      · simp [lookup2, lookup_dictInsert_ne acc vs0 vs (.jobj (inner0.dictInsert ns0 q)) hvs,
          hmFv vs ns hvs]
  | none =>
    have hstep : buildStep acc q =
        .ok ((acc.dictInsert vs0 (.jobj .onil)).dictInsert vs0
          (.jobj (JObj.onil.dictInsert ns0 q))) := by
      unfold buildStep
      rw [hv, hn]
      simp [hlo, lookup_dictInsert_self]
    refine ⟨_, hstep, ⟨?_, ?_⟩, ?_⟩
    · exact nodup_dictInsert _ vs0 _ (nodup_dictInsert acc vs0 _ hnd)
    · intro k v2 hk
      by_cases hkv : k = vs0
      · subst hkv
        rw [lookup_dictInsert_self] at hk
        injection hk with hk2
        refine ⟨JObj.onil.dictInsert ns0 q, hk2.symm, ?_⟩
        exact nodup_dictInsert .onil ns0 q (by simp [JObj.keys])
      · rw [lookup_dictInsert_ne _ vs0 k _ hkv,
          lookup_dictInsert_ne acc vs0 k _ hkv] at hk
        exact hsh k v2 hk
    · intro vs ns
      by_cases hvs : vs = vs0
      · subst hvs
        by_cases hns : ns = ns0
        · subst hns
          simp [lookup2, lookup_dictInsert_self, hmT]
        · simp [lookup2, lookup_dictInsert_self,
            lookup_dictInsert_ne JObj.onil ns0 ns q hns, hmFn ns hns, hlo, JObj.lookup,
            Ne.symm hns]
      · simp [lookup2,
          lookup_dictInsert_ne (acc.dictInsert vs0 (.jobj .onil)) vs0 vs
            (.jobj (JObj.onil.dictInsert ns0 q)) hvs,
          lookup_dictInsert_ne acc vs0 vs (.jobj .onil) hvs, hmFv vs ns hvs]

theorem buildTable_ok (recs : List JVal) (acc : JObj)
    (h : ∀ q ∈ recs, wfRecordB q = true) (hws : WSInv acc) :
    ∃ t, buildTable recs acc = .ok t ∧ WSInv t ∧
      ∀ vs ns, lookup2 t vs ns =
        match lastRecord recs vs ns with
        | some q => some q
        | none => lookup2 acc vs ns := by
  induction recs generalizing acc with
  | nil =>
    exact ⟨acc, rfl, hws, fun vs ns => by simp [lastRecord]⟩
  | cons q rest ih =>
    obtain ⟨acc2, hstep, hws2, hlk⟩ := buildStep_ok acc q (h q (by simp)) hws
    obtain ⟨t, hbt, hwst, hlkt⟩ := ih acc2 (fun q2 hq2 => h q2 (by simp [hq2])) hws2
    refine ⟨t, ?_, hwst, ?_⟩
    · simp [buildTable, hstep, hbt]
    · intro vs ns
      rw [hlkt vs ns]
      cases hlast : lastRecord rest vs ns with
      | some q2 => simp [lastRecord, hlast]
      | none =>
        rw [hlk vs ns]
        simp only [lastRecord, hlast]
        by_cases hm : recMatches vs ns q = true
        · simp [hm]
        · simp [hm]

/-- C7: the per-vhost queue table built by `API.getQueueStats` from a
flat record list groups by `(vhost, name)` with last-write-wins: the
grouped table's two-level lookup returns exactly the last record in
list order for each pair, the table has no duplicate vhost keys, and
every per-vhost bucket is a dictionary with no duplicate queue keys. -/
theorem C7_grouping_last_write_wins (recs : List JVal)
    (h : ∀ q ∈ recs, wfRecordB q = true) :
    ∃ t, buildTable recs .onil = .ok t ∧
      (∀ vs ns, lookup2 t vs ns = lastRecord recs vs ns) ∧
      t.keys.Nodup ∧
      (∀ k v, t.lookup k = some v →
        ∃ inner : JObj, v = .jobj inner ∧ inner.keys.Nodup) := by
  have hws : WSInv .onil := by
    constructor
    · simp [JObj.keys]
    · intro k v hk
      simp [JObj.lookup] at hk
  obtain ⟨t, hbt, ⟨hnd, hsh⟩, hlk⟩ := buildTable_ok recs .onil h hws
  refine ⟨t, hbt, ?_, hnd, hsh⟩
  intro vs ns
  rw [hlk vs ns]
  cases hlast : lastRecord recs vs ns with
  | some q2 => simp
  | none => simp [lookup2, JObj.lookup]

/-- A queue record as the API reports it. -/
def qrec (vs ns : String) (m : Int) : JVal :=
  .jobj (.ocons "vhost" (.jstr vs)
    (.ocons "name" (.jstr ns) (.ocons "messages" (.jint m) .onil)))

example : (match buildTable [qrec "/" "q1" 5, qrec "/" "q1" 7] .onil with
  | .ok t => lookup2 t "/" "q1"
  | .error _ => none) = some (qrec "/" "q1" 7) := by decide

theorem C7_witness :
    (∀ q ∈ [qrec "/" "q1" 5, qrec "/" "q1" 7], wfRecordB q = true) ∧
    ∃ t, buildTable [qrec "/" "q1" 5, qrec "/" "q1" 7] .onil = .ok t ∧
      (∀ vs ns, lookup2 t vs ns =
        lastRecord [qrec "/" "q1" 5, qrec "/" "q1" 7] vs ns) ∧
      t.keys.Nodup ∧
      (∀ k v, t.lookup k = some v →
        ∃ inner : JObj, v = .jobj inner ∧ inner.keys.Nodup) :=
  ⟨by decide, C7_grouping_last_write_wins _ (by decide)⟩

/-! ## Get-or-refresh error behaviour (C1, C2) -/

/-- Whether an invocation's handler enters the `API` context manager
(performs the get-or-refresh) rather than stopping at a help or usage
message. -/
def entersAPI : Invocation → Bool
  | .noArgs => false
  | .cmd (.queues d k v q) =>
      decide (0 < d) || (!strFalsy k && !(strFalsy v || strFalsy q))
  | .cmd (.server d k) => decide (0 < d) || !strFalsy k
  | .cmd (.hcheck k n) => !strFalsy k || !strFalsy n

/-- C1: with an invalid cache, a failure of any of the three fetches
(issued in the order overview, queues, healthcheck) aborts the refresh:
the error is the result, the cache file is untouched, no write event
occurs and no later fetch is issued; the cache is written only when all
three succeed; and the failure reaches the invocation boundary as an
uncaught exception of every handler that enters the refresh. -/
theorem C1_fetch_failure_aborts_refresh (c : FileState) (r : Remote) (now : Int)
    (hinvalid : is_valid c now 60 = .ok false) :
    (∀ e, r.overview = .error e →
      apiEnter c r now = ⟨.error e, c, [.fetchOverview]⟩) ∧
    (∀ ov e, r.overview = .ok ov → getQueueStats r.queues = .error e →
      apiEnter c r now = ⟨.error e, c, [.fetchOverview, .fetchQueues]⟩) ∧
    (∀ ov qs e, r.overview = .ok ov → getQueueStats r.queues = .ok qs →
      r.healthcheck = .error e →
      apiEnter c r now = ⟨.error e, c, [.fetchOverview, .fetchQueues, .fetchHealth]⟩) ∧
    (∀ ov qs hc, r.overview = .ok ov → getQueueStats r.queues = .ok qs →
      r.healthcheck = .ok hc →
      apiEnter c r now = ⟨.ok (payloadBuild ov qs hc),
        Cache.write now (payloadBuild ov qs hc),
        [.fetchOverview, .fetchQueues, .fetchHealth, .cacheWrite]⟩) ∧
    (∀ inv e2, entersAPI inv = true → (apiEnter c r now).result = .error e2 →
      (runMain inv c r now).1 = .crashed [] e2) := by
  refine ⟨?_, ?_, ?_, ?_, ?_⟩
  · intro e he
    unfold apiEnter
    rw [hinvalid, he]
  · intro ov e hov hq
    unfold apiEnter
    rw [hinvalid, hov, hq]
  · intro ov qs e hov hq hh
    unfold apiEnter
    rw [hinvalid, hov, hq, hh]
  · intro ov qs hc hov hq hh
    unfold apiEnter
    rw [hinvalid, hov, hq, hh]
  · intro inv e2 henter hres
    cases inv with
    | noArgs => simp [entersAPI] at henter
    | cmd cc =>
      cases cc with
      | queues d k v q =>
        simp only [entersAPI, Bool.or_eq_true, decide_eq_true_eq, Bool.and_eq_true,
          Bool.not_eq_true'] at henter
        rcases henter with hd | ⟨hk, hvq⟩
        · simp [runMain, doQueues, hd, hres]
        · obtain ⟨hv2, hq2⟩ := Bool.or_eq_false_iff.mp hvq
          by_cases hd2 : 0 < d
          · simp [runMain, doQueues, hd2, hres]
          · simp [runMain, doQueues, hd2, hk, hv2, hq2, hres]
      | server d k =>
        simp only [entersAPI, Bool.or_eq_true, decide_eq_true_eq,
          Bool.not_eq_true'] at henter
        rcases henter with hd | hk
        · simp [runMain, doGeneral, hd, hres]
        · by_cases hd2 : 0 < d
          · simp [runMain, doGeneral, hd2, hres]
          · simp [runMain, doGeneral, hd2, hk, hres]
      | hcheck k n =>
        simp only [entersAPI, Bool.or_eq_true, Bool.not_eq_true'] at henter
        rcases henter with hk | hn
        · simp [runMain, doHCheck, hk, hres]
        · by_cases hk2 : strFalsy k = false
          · simp [runMain, doHCheck, hk2, hres]
          · have hk3 : strFalsy k = true := by
              cases hkk : strFalsy k
              · exact absurd hkk hk2
              · rfl
            simp [runMain, doHCheck, hk3, hn, hres]

/-- A remote whose overview GET fails. -/
def rFailOverview : Remote :=
  ⟨.error (.httpError 1), .ok (.jarr .anil), .ok (.jobj .onil), fun _ => .ok .jnull⟩

theorem C1_witness :
    is_valid FileState.absent 0 60 = .ok false ∧
    apiEnter .absent rFailOverview 0 =
      ⟨.error (.httpError 1), .absent, [.fetchOverview]⟩ ∧
    (runMain (.cmd (.server 1 none)) .absent rFailOverview 0).1 =
      .crashed [] (.httpError 1) := by
  refine ⟨by decide, ?_, ?_⟩
  · exact (C1_fetch_failure_aborts_refresh .absent rFailOverview 0 (by decide)).1
      (.httpError 1) rfl
  · exact (C1_fetch_failure_aborts_refresh .absent rFailOverview 0
      (by decide)).2.2.2.2 (.cmd (.server 1 none)) (.httpError 1) (by decide) (by decide)

/-- The spec's literal reading of the corrupt-cache policy: a cache blob
that is within TTL but fails to deserialize is treated as a miss, so a
live refresh runs and a fresh payload is returned. -/
def corruptRefreshClaim : Prop :=
  ∀ (c : FileState) (r : Remote) (now : Int) (e : PyErr),
    is_valid c now 60 = .ok true →
    Cache.read c = .error e →
    ∃ p, (apiEnter c r now).result = .ok p

/-- A blob whose content does not unpickle. -/
def corruptCacheState : FileState := .present 0 [.tend]

/-- A remote on which all four GETs succeed. -/
def healthyRemote : Remote :=
  ⟨.ok (.jobj .onil), .ok (.jarr .anil), .ok (.jobj .onil),
    fun _ => .ok (.jobj (.ocons "status" (.jstr "ok") .onil))⟩

/-- C2 counterexample: with a corrupt blob written 0 seconds ago and a
fully healthy remote, `API.__enter__` does not refresh: the unpickling
error propagates (there is no `try` around `c.read()` at line 125), so
no fresh payload is returned. -/
theorem C2_counterexample : ¬ corruptRefreshClaim := by
  intro hcl
  obtain ⟨p, hp⟩ := hcl corruptCacheState healthyRemote 0 .unpicklingError
    (by decide) (by decide)
  have hc : (apiEnter corruptCacheState healthyRemote 0).result =
      .error .unpicklingError := by decide
  rw [hc] at hp
  exact Except.noConfusion hp

/-- C2 amended: when the cache blob is within TTL but fails to
deserialize, the get-or-refresh raises the deserialization failure to
the caller uncaught: no fetch is issued, no refresh happens, and the
cache file is left unchanged. -/
theorem C2_amended_corrupt_read_propagates (c : FileState) (r : Remote)
    (now : Int) (e : PyErr)
    (hvalid : is_valid c now 60 = .ok true)
    (hcorrupt : Cache.read c = .error e) :
    apiEnter c r now = ⟨.error e, c, [.cacheRead]⟩ := by
  unfold apiEnter
  rw [hvalid, hcorrupt]

theorem C2_amended_witness :
    apiEnter corruptCacheState healthyRemote 0 =
      ⟨.error .unpicklingError, corruptCacheState, [.cacheRead]⟩ :=
  C2_amended_corrupt_read_propagates corruptCacheState healthyRemote 0
    .unpicklingError (by decide) (by decide)

/-! ## Dotted-path scalar lookups (C6) -/

/-- The spec's view of indexing one level of the Payload: a map either
holds the key or the segment is absent; non-maps hold no segments. -/
def objGet : JVal → String → Option JVal
  | .jobj o, k => o.lookup k
  | _, _ => none

/-- The spec's notion of resolving a one- or two-segment dotted path in
a section: `none` when any segment is absent. -/
def specResolve (sec : JVal) (segs : List String) : Option JVal :=
  match segs with
  | [k] => objGet sec k
  | [k1, k2] =>
    match objGet sec k1 with
    | some v => objGet v k2
    | none => none
  | _ => none

/-- The spec's notion of selecting a queue record and resolving a field
path inside it. -/
def specQueuePath (p : JVal) (vh qn : String) (segs : List String) : Option JVal :=
  match objGet p "queues" with
  | some qs =>
    match objGet qs vh with
    | some inner =>
      match objGet inner qn with
      | some rec2 => specResolve rec2 segs
      | none => none
    | none => none
  | none => none

/-- Literal C6 for the `server` subcommand: whenever a one- or
two-segment path fails to resolve in the overview section, the
invocation prints exactly the `Unknown` token and exits 1. -/
def pathUnknownClaimServer : Prop :=
  ∀ (c : FileState) (r : Remote) (now : Int) (k : String) (p sec : JVal),
    (apiEnter c r now).result = .ok p →
    k ≠ "" →
    ((pySplitDot k).length = 1 ∨ (pySplitDot k).length = 2) →
    pyGetItem p "overview" = .ok sec →
    specResolve sec (pySplitDot k) = none →
    (runMain (.cmd (.server 0 (some k))) c r now).1 = .exited [.unknown] 1

/-- Literal C6 for the `queues` subcommand. -/
def pathUnknownClaimQueues : Prop :=
  ∀ (c : FileState) (r : Remote) (now : Int) (k vh qn : String) (p : JVal),
    (apiEnter c r now).result = .ok p →
    vh ≠ "" → qn ≠ "" → k ≠ "" →
    ((pySplitDot k).length = 1 ∨ (pySplitDot k).length = 2) →
    specQueuePath p vh qn (pySplitDot k) = none →
    (runMain (.cmd (.queues 0 (some k) (some vh) (some qn))) c r now).1 =
      .exited [.unknown] 1

/-- Literal C6 for the `healthcheck` subcommand. -/
def pathUnknownClaimHCheck : Prop :=
  ∀ (c : FileState) (r : Remote) (now : Int) (k : String) (p sec : JVal),
    (apiEnter c r now).result = .ok p →
    k ≠ "" →
    ((pySplitDot k).length = 1 ∨ (pySplitDot k).length = 2) →
    pyGetItem p "healthcheck" = .ok sec →
    specResolve sec (pySplitDot k) = none →
    (runMain (.cmd (.hcheck (some k) none)) c r now).1 = .exited [.unknown] 1

/-- The literal reading of C6: every scalar lookup whose path has an
absent segment prints `Unknown` and exits nonzero. -/
def pathUnknownClaim : Prop :=
  pathUnknownClaimServer ∧ pathUnknownClaimQueues ∧ pathUnknownClaimHCheck

/-- A remote whose overview maps `a` to the scalar 5. -/
def rOverviewScalar : Remote :=
  ⟨.ok (.jobj (.ocons "a" (.jint 5) .onil)), .ok (.jarr .anil), .ok (.jobj .onil),
    fun _ => .ok .jnull⟩

/-- The payload such a refresh produces. -/
def pC6 : JVal :=
  payloadBuild (.jobj (.ocons "a" (.jint 5) .onil)) (.jobj .onil) (.jobj .onil)

/-- C6 counterexample: path `a.b` on an overview where `a` holds the
scalar 5.  Segment `b` is absent (`specResolve` is `none`), yet the
invocation does not print `Unknown`: only `KeyError` is caught at lines
204-206, so the subscript on the integer raises an uncaught `TypeError`
and the process dies with a traceback instead. -/
theorem C6_counterexample : ¬ pathUnknownClaim := by
  intro hcl
  have h := hcl.1 .absent rOverviewScalar 0 "a.b" pC6
    (.jobj (.ocons "a" (.jint 5) .onil)) (by decide) (by decide) (by decide)
    (by decide) (by decide)
  have h2 : (runMain (.cmd (.server 0 (some "a.b"))) .absent rOverviewScalar 0).1 =
      .crashed [] .typeError := by decide
  rw [h2] at h
  exact Outcome.noConfusion h

/-- C6 amended: a scalar lookup prints the distinguished `Unknown` token
and exits 1 exactly when the failed segment is a key missing from a
dictionary (`KeyError`); when an intermediate segment resolves to a
non-dictionary value the invocation instead dies with an uncaught
`TypeError`.  The four conjuncts cover: a one-segment and a two-segment
overview path whose key-not-found happens inside dictionaries, any
`KeyError` in the queues vhost/queue/field chain, and a missing literal
healthcheck key. -/
theorem C6_amended_keyerror_prints_unknown (c : FileState) (r : Remote) (now : Int) :
    (∀ (k k1 : String) (p : JVal) (o : JObj),
      (apiEnter c r now).result = .ok p → k ≠ "" →
      pySplitDot k = [k1] →
      pyGetItem p "overview" = .ok (.jobj o) → o.lookup k = none →
      (runMain (.cmd (.server 0 (some k))) c r now).1 = .exited [.unknown] 1) ∧
    (∀ (k k1 k2 : String) (p : JVal) (o : JObj),
      (apiEnter c r now).result = .ok p → k ≠ "" →
      pySplitDot k = [k1, k2] →
      pyGetItem p "overview" = .ok (.jobj o) →
      (o.lookup k1 = none ∨
       ∃ o2 : JObj, o.lookup k1 = some (.jobj o2) ∧ o2.lookup k2 = none) →
      (runMain (.cmd (.server 0 (some k))) c r now).1 = .exited [.unknown] 1) ∧
    (∀ (k vh qn : String) (p : JVal),
      (apiEnter c r now).result = .ok p →
      k ≠ "" → vh ≠ "" → qn ≠ "" →
      doQueuesItemBody p k vh qn = .error .keyError →
      (runMain (.cmd (.queues 0 (some k) (some vh) (some qn))) c r now).1 =
        .exited [.unknown] 1) ∧
    (∀ (k : String) (p : JVal) (o : JObj),
      (apiEnter c r now).result = .ok p → k ≠ "" →
      pyGetItem p "healthcheck" = .ok (.jobj o) → o.lookup k = none →
      (runMain (.cmd (.hcheck (some k) none)) c r now).1 = .exited [.unknown] 1) := by
  refine ⟨?_, ?_, ?_, ?_⟩
  · intro k k1 p o hres hk hsplit hov hlo
    have hbody : doGeneralItemBody p k = .error .keyError := by
      unfold doGeneralItemBody
      rw [hov]
      unfold pathBody
      rw [hsplit]
      simp [pyGetItem, hlo]
    have hkf : strFalsy (some k) = false := by simp [strFalsy, hk]
    simp [runMain, doGeneral, hkf, hres, tryKeyExcept, hbody]
  · intro k k1 k2 p o hres hk hsplit hov hsel
    have hbody : doGeneralItemBody p k = .error .keyError := by
      unfold doGeneralItemBody
      rw [hov]
      unfold pathBody
      rw [hsplit]
      rcases hsel with hnone | ⟨o2, hsome, hnone2⟩
      · simp [pyGetItem, hnone]
      · simp [pyGetItem, hsome, hnone2]
    have hkf : strFalsy (some k) = false := by simp [strFalsy, hk]
    simp [runMain, doGeneral, hkf, hres, tryKeyExcept, hbody]
  · intro k vh qn p hres hk hv hq hbody
    have hkf : strFalsy (some k) = false := by simp [strFalsy, hk]
    have hvf : strFalsy (some vh) = false := by simp [strFalsy, hv]
    have hqf : strFalsy (some qn) = false := by simp [strFalsy, hq]
    simp [runMain, doQueues, hkf, hvf, hqf, hres, tryKeyExcept, hbody]
  · intro k p o hres hk hhc hlo
    have hbody : doHCheckItemBody p k = .error .keyError := by
      unfold doHCheckItemBody
      rw [hhc]
      simp [pyGetItem, hlo]
    have hkf : strFalsy (some k) = false := by simp [strFalsy, hk]
    simp [runMain, doHCheck, hkf, hres, tryKeyExcept, hbody]

/-- The payload a refresh against `healthyRemote` produces. -/
def pHealthy : JVal := payloadBuild (.jobj .onil) (.jobj .onil) (.jobj .onil)

theorem C6_amended_witness :
    (runMain (.cmd (.hcheck (some "x") none)) .absent healthyRemote 0).1 =
      .exited [.unknown] 1 :=
  (C6_amended_keyerror_prints_unknown .absent healthyRemote 0).2.2.2 "x" pHealthy
    .onil (by decide) (by decide) (by decide) (by decide)

example : (runMain (.cmd (.queues 0 (some "messages") (some "/") (some "missing")))
    .absent healthyRemote 0).1 = .exited [.unknown] 1 := by decide

/-! ## Exit codes (C9) -/

/-- An invocation that selects no action: no arguments at all, a
subcommand with no actionable flags, or `queues -k` without a usable
`-v`/`-q`. -/
def noActionable : Invocation → Bool
  | .noArgs => true
  | .cmd (.queues d k v q) =>
      decide (d = 0) && (strFalsy k || (!strFalsy k && (strFalsy v || strFalsy q)))
  | .cmd (.server d k) => decide (d = 0) && strFalsy k
  | .cmd (.hcheck k n) => strFalsy k && strFalsy n

/-- The literal reading of C9's third arm: whenever no actionable
arguments were given, the invocation terminates with an exit code
distinct from both 0 and 1. -/
def exitCodeClaim : Prop :=
  ∀ (inv : Invocation) (c : FileState) (r : Remote) (now : Int)
    (out : List Line) (code : Nat),
    noActionable inv = true →
    (runMain inv c r now).1 = .exited out code →
    code ≠ 0 ∧ code ≠ 1

/-- C9 counterexample: `queues -k messages` without `-v`/`-q` selects no
action (line 154 rejects it), yet the process prints the usage message
and exits 0 (line 156: `sys.exit(0)`), not a code distinct from 0 and 1.
An invocation with no arguments at all likewise exits 0 after printing
the top-level help. -/
theorem C9_counterexample : ¬ exitCodeClaim := by
  intro hcl
  have h := hcl (.cmd (.queues 0 (some "messages") none none)) .absent healthyRemote 0
    [.msgVQRequired] 0 (by decide) (by decide)
  exact h.1 rfl

/-- C9 amended: success exits 0 and a key-not-found lookup exits 1 (via
the `Unknown` token); a subcommand given no actionable flags prints its
help and exits 2; but an invocation with no arguments at all prints the
top-level help and exits 0, and `queues -k` without `-v`/`-q` prints the
usage message and exits 0. -/
theorem C9_amended_exit_codes (c : FileState) (r : Remote) (now : Int) :
    ((runMain .noArgs c r now).1 = .exited [.helpMain] 0) ∧
    (∀ k v q, strFalsy k = true →
      (runMain (.cmd (.queues 0 k v q)) c r now).1 = .exited [.helpQueues] 2) ∧
    (∀ k, strFalsy k = true →
      (runMain (.cmd (.server 0 k)) c r now).1 = .exited [.helpServer] 2) ∧
    (∀ k n, strFalsy k = true → strFalsy n = true →
      (runMain (.cmd (.hcheck k n)) c r now).1 = .exited [.helpHCheck] 2) ∧
    (∀ k v q, strFalsy k = false → (strFalsy v = true ∨ strFalsy q = true) →
      (runMain (.cmd (.queues 0 k v q)) c r now).1 = .exited [.msgVQRequired] 0) ∧
    (∀ (k vh qn : String) (p : JVal) (res : List Line × Nat),
      (apiEnter c r now).result = .ok p →
      doQueuesItemBody p k vh qn = .ok res →
      k ≠ "" → vh ≠ "" → qn ≠ "" →
      (runMain (.cmd (.queues 0 (some k) (some vh) (some qn))) c r now).1 =
        .exited res.1 res.2) ∧
    (∀ (k vh qn : String) (p : JVal),
      (apiEnter c r now).result = .ok p →
      doQueuesItemBody p k vh qn = .error .keyError →
      k ≠ "" → vh ≠ "" → qn ≠ "" →
      (runMain (.cmd (.queues 0 (some k) (some vh) (some qn))) c r now).1 =
        .exited [.unknown] 1) := by
  refine ⟨?_, ?_, ?_, ?_, ?_, ?_, ?_⟩
  · rfl
  · intro k v q hk
    simp [runMain, doQueues, hk]
  · intro k hk
    simp [runMain, doGeneral, hk]
  · intro k n hk hn
    simp [runMain, doHCheck, hk, hn]
  · intro k v q hk hvq
    rcases hvq with hv | hq
    · simp [runMain, doQueues, hk, hv]
    · simp [runMain, doQueues, hk, hq]
  · intro k vh qn p res hres hbody hk hv hq
    obtain ⟨lines, code⟩ := res
    have hkf : strFalsy (some k) = false := by simp [strFalsy, hk]
    have hvf : strFalsy (some vh) = false := by simp [strFalsy, hv]
    have hqf : strFalsy (some qn) = false := by simp [strFalsy, hq]
    simp [runMain, doQueues, hkf, hvf, hqf, hres, tryKeyExcept, hbody]
  · intro k vh qn p hres hbody hk hv hq
    have hkf : strFalsy (some k) = false := by simp [strFalsy, hk]
    have hvf : strFalsy (some vh) = false := by simp [strFalsy, hv]
    have hqf : strFalsy (some qn) = false := by simp [strFalsy, hq]
    simp [runMain, doQueues, hkf, hvf, hqf, hres, tryKeyExcept, hbody]

theorem C9_witness :
    (runMain (.cmd (.queues 0 (some "k") none none)) .absent healthyRemote 0).1 =
      .exited [.msgVQRequired] 0 :=
  (C9_amended_exit_codes .absent healthyRemote 0).2.2.2.2.1 (some "k") none none
    (by decide) (Or.inl (by decide))

example : (runMain .noArgs .absent healthyRemote 0).1 = .exited [.helpMain] 0 := by
  decide

/-! ## Single-node health query (C10) -/

/-- C10: the `healthcheck -n` invocation first performs the whole
get-or-refresh (entering `API`) and only then issues the dedicated live
node-health GET (so its trace is the refresh trace followed by
`fetchNode`, and no node GET happens when the refresh raises); the
printed answer is the live GET's `status` field, taken from the remote
and never from the payload; and when the cache was invalid and all three
fetches succeed, the cache blob is written before the node GET is
issued. -/
theorem C10_node_health_live_after_refresh (c : FileState) (r : Remote) (now : Int)
    (n : String) (hn : n ≠ "") :
    ((runMain (.cmd (.hcheck none (some n))) c r now).2.2 =
      (apiEnter c r now).trace ++
        (match (apiEnter c r now).result with
         | .ok _ => [Ev.fetchNode n]
         | .error _ => [])) ∧
    (∀ p v, (apiEnter c r now).result = .ok p → getNodeHealth r n = .ok v →
      (runMain (.cmd (.hcheck none (some n))) c r now).1 = .exited [.value v] 0) ∧
    ((runMain (.cmd (.hcheck none (some n))) c r now).2.1 = (apiEnter c r now).cache) ∧
    (is_valid c now 60 = .ok false →
      ∀ ov qs hc, r.overview = .ok ov → getQueueStats r.queues = .ok qs →
        r.healthcheck = .ok hc →
        (runMain (.cmd (.hcheck none (some n))) c r now).2.2 =
          [.fetchOverview, .fetchQueues, .fetchHealth, .cacheWrite, .fetchNode n] ∧
        (runMain (.cmd (.hcheck none (some n))) c r now).2.1 =
          Cache.write now (payloadBuild ov qs hc)) := by
  have hnf : strFalsy (some n) = false := by simp [strFalsy, hn]
  refine ⟨?_, ?_, ?_, ?_⟩
  · cases hres : (apiEnter c r now).result with
    | error e => simp [runMain, doHCheck, strFalsy, hn, hres]
    | ok p =>
      cases hnh : getNodeHealth r n with
      | ok v => simp [runMain, doHCheck, strFalsy, hn, hres, hnh]
      | error e => simp [runMain, doHCheck, strFalsy, hn, hres, hnh]
  · intro p v hres hnh
    simp [runMain, doHCheck, strFalsy, hn, hres, hnh]
  · cases hres : (apiEnter c r now).result with
    | error e => simp [runMain, doHCheck, strFalsy, hn, hres]
    | ok p =>
      cases hnh : getNodeHealth r n with
      | ok v => simp [runMain, doHCheck, strFalsy, hn, hres, hnh]
      | error e => simp [runMain, doHCheck, strFalsy, hn, hres, hnh]
  · intro hinv ov qs hc hov hqs hhc
    have hapi : apiEnter c r now = ⟨.ok (payloadBuild ov qs hc),
        Cache.write now (payloadBuild ov qs hc),
        [.fetchOverview, .fetchQueues, .fetchHealth, .cacheWrite]⟩ := by
      unfold apiEnter
      rw [hinv, hov, hqs, hhc]
    cases hnh : getNodeHealth r n with
    | ok v =>
      constructor
      · simp [runMain, doHCheck, strFalsy, hn, hapi, hnh]
      · simp [runMain, doHCheck, strFalsy, hn, hapi, hnh]
    | error e =>
      constructor
      · simp [runMain, doHCheck, strFalsy, hn, hapi, hnh]
      · simp [runMain, doHCheck, strFalsy, hn, hapi, hnh]

theorem C10_witness :
    (runMain (.cmd (.hcheck none (some "n1"))) .absent healthyRemote 0).1 =
      .exited [.value (.jstr "ok")] 0 :=
  (C10_node_health_live_after_refresh .absent healthyRemote 0 "n1"
    (by decide)).2.1 pHealthy (.jstr "ok") (by decide) (by decide)

/-! ## Concurrency claims (C3, C8) -/

/-- C3: no reader ever observes a half-written blob.  In every reachable
state of any number of concurrent invocations, everything a `read`
observed is a complete blob version — never the truncated mid-write
content that `open(..., 'wb')` exposes — because both `Cache.read` and
`Cache.write` only run inside the per-identifier `SimpleFlock` region of
`API.__enter__`. -/
theorem C3_reader_never_sees_partial_blob {PId : Type} [DecidableEq PId]
    (s : CSys PId) (h : Reachable s) :
    ∀ (i : PId) (f : FileV), (s.procs i).obs = some f → ∃ ver, f = .complete ver := by
  have hinv := inv_reachable s h
  intro i f hobs
  have hnp := hinv.2.2.2.1 i f hobs
  cases f with
  | complete ver => exact ⟨ver, rfl⟩
  | truncated => exact absurd rfl hnp

/-- The reachable states used by the concurrency witnesses: one process
(`true`) acquires the lock, sees a valid cache, reads it, and releases. -/
def w0 : CSys Bool := initSys Bool

def w1 : CSys Bool :=
  { setProc w0 true { w0.procs true with pc := .check } with lock := some true }

def w2 : CSys Bool := setProc w1 true { w1.procs true with pc := .readS }

def w3 : CSys Bool :=
  setProc w2 true { w2.procs true with pc := .unlockOk, obs := some w2.file }

theorem reach_w1 : Reachable w1 :=
  Relation.ReflTransGen.tail Relation.ReflTransGen.refl
    ⟨true, Step.acqOk w0 (by decide) (by decide)⟩

theorem reach_w3 : Reachable w3 :=
  Relation.ReflTransGen.tail
    (Relation.ReflTransGen.tail reach_w1 ⟨true, Step.checkHit w1 (by decide)⟩)
    ⟨true, Step.readOk w2 (by decide)⟩

theorem C3_witness :
    (w3.procs true).obs = some (.complete 0) ∧
    ∃ ver, (FileV.complete 0) = FileV.complete ver :=
  ⟨by decide, C3_reader_never_sees_partial_blob w3 reach_w3 true (.complete 0)
    (by decide)⟩

/-- C8: the lock discipline of `API.__enter__`.  In every reachable
state: (1) a process positioned anywhere inside the get-or-refresh
sequence (validity check, read, the three fetches, the two write phases,
or the release points) holds the lock; (2) a process that has exited —
normally or by exception — no longer holds it (`SimpleFlock.__exit__`
releases unconditionally); (3) the time spent polling for the lock never
exceeds the 10-unit timeout; and (4) a process that has polled for the
full timeout while another holds the lock can step, and its only
possible step fails the invocation with the lock-timeout condition — it
neither blocks forever nor proceeds without the lock. -/
theorem C8_lock_held_entire_sequence {PId : Type} [DecidableEq PId]
    (s : CSys PId) (h : Reachable s) :
    (∀ i, inLocked (s.procs i).pc = true → s.lock = some i) ∧
    (∀ i, ((s.procs i).pc = .done ∨ ∃ e, (s.procs i).pc = .failed e) →
      s.lock ≠ some i) ∧
    (∀ i, (s.procs i).wait ≤ 10) ∧
    (∀ i j, (s.procs i).pc = .start → (s.procs i).wait = 10 →
      s.lock = some j → j ≠ i →
      (∃ s2, Step i s s2) ∧
      (∀ s2, Step i s s2 → (s2.procs i).pc = .failed .lockTimeout)) := by
  have hinv := inv_reachable s h
  obtain ⟨h1, h2, h3, h4, h5⟩ := hinv
  refine ⟨h1, ?_, h5, ?_⟩
  · intro i hterm hlock
    have hin := h2 i hlock
    rcases hterm with hd | ⟨e, hf⟩
    · rw [hd] at hin
      exact Bool.noConfusion hin
    · rw [hf] at hin
      exact Bool.noConfusion hin
  · intro i j hpc hw hlock hji
    constructor
    · exact ⟨_, Step.acqTimeout s j hpc hlock hji hw⟩
    · intro s2 hstep
      cases hstep with
      | acqOk hpc2 hlock2 => rw [hlock] at hlock2; exact Option.noConfusion hlock2
      | acqWait j2 hpc2 hlock2 hji2 hw2 => rw [hw] at hw2; exact absurd hw2 (lt_irrefl 10)
      | acqTimeout j2 hpc2 hlock2 hji2 hw2 => rw [setProc_procs_eq]
      | checkHit hpc2 => rw [hpc] at hpc2; exact PC.noConfusion hpc2
      | checkMiss hpc2 => rw [hpc] at hpc2; exact PC.noConfusion hpc2
      | readOk hpc2 => rw [hpc] at hpc2; exact PC.noConfusion hpc2
      | readCorrupt hpc2 => rw [hpc] at hpc2; exact PC.noConfusion hpc2
      | fetchOk1 hpc2 => rw [hpc] at hpc2; exact PC.noConfusion hpc2
      | fetchFail1 hpc2 => rw [hpc] at hpc2; exact PC.noConfusion hpc2
      | fetchOk2 hpc2 => rw [hpc] at hpc2; exact PC.noConfusion hpc2
      | fetchFail2 hpc2 => rw [hpc] at hpc2; exact PC.noConfusion hpc2
      | fetchOk3 hpc2 => rw [hpc] at hpc2; exact PC.noConfusion hpc2
      | fetchFail3 hpc2 => rw [hpc] at hpc2; exact PC.noConfusion hpc2
      | writeTrunc hpc2 => rw [hpc] at hpc2; exact PC.noConfusion hpc2
      | writeDone hpc2 => rw [hpc] at hpc2; exact PC.noConfusion hpc2
      | unlockN hpc2 => rw [hpc] at hpc2; exact PC.noConfusion hpc2
      | unlockE hpc2 => rw [hpc] at hpc2; exact PC.noConfusion hpc2

/-- The state after the reader has released the lock. -/
def w4 : CSys Bool :=
  { setProc w3 true { w3.procs true with pc := .done } with lock := none }

theorem reach_w4 : Reachable w4 :=
  Relation.ReflTransGen.tail reach_w3 ⟨true, Step.unlockN w3 (by decide)⟩

theorem C8_witness :
    w1.lock = some true ∧ w4.lock ≠ some true :=
  ⟨(C8_lock_held_entire_sequence w1 reach_w1).1 true (by decide),
    (C8_lock_held_entire_sequence w4 reach_w4).2.1 true (Or.inl (by decide))⟩

end ZbxRabbit
